import Mathlib

/-!
Verification of the PDF search tool (src/pdfserch4.py) against its
natural-language specification.

The development shallowly embeds the program's core: Python strings are
modelled as `List Char`, byte strings as `List Nat` (each entry a byte
value), Python dictionaries as association lists in insertion order, and
fallible operations as `Option`/`Except` values.  External collaborators
that are not part of the repository's code (the `re` regular-expression
engine, `zlib` decompression, and the filesystem) enter as explicit
function parameters, so every theorem quantifies over their behaviour.
-/

namespace PdfSearch

/-! ## Generic Python primitives -/

/-- Python `str.find` / `bytes.find` restricted to a start offset:
the least index `i ≥ start` (and `i ≤ length`) at which `pat` occurs as a
prefix of the suffix of `hay`, `none` when there is no such index
(Python returns `-1` there, including when `start` exceeds the length). -/
def pyFind {α : Type} [DecidableEq α] (hay pat : List α) (start : Nat) : Option Nat :=
  ((List.range (hay.length + 1)).filter
    (fun i => decide (start ≤ i) && pat.isPrefixOf (hay.drop i))).head?

/-- Python `sub in hay` membership test on sequences. -/
def pyContains {α : Type} [DecidableEq α] (hay pat : List α) : Bool :=
  (pyFind hay pat 0).isSome

/-- Python slice `l[a:b]` for `0 ≤ a ≤ b` (empty when `b ≤ a`). -/
def pySlice {α : Type} (l : List α) (a b : Nat) : List α :=
  (l.drop a).take (b - a)

/-- The one-to-one part of the Unicode lowercase mapping, embedded for
the blocks whose mapping is algorithmic: ASCII, the Latin-1 supplement
(`À`-`Þ` except the multiplication sign), Greek and Cyrillic capitals.
Characters outside these blocks are kept unchanged. -/
def simpleLowerChar (c : Char) : Char :=
  let n := c.toNat
  if 65 ≤ n ∧ n ≤ 90 then Char.ofNat (n + 32)
  else if 192 ≤ n ∧ n ≤ 222 ∧ n ≠ 215 then Char.ofNat (n + 32)
  else if 913 ≤ n ∧ n ≤ 929 then Char.ofNat (n + 32)
  else if 931 ≤ n ∧ n ≤ 939 then Char.ofNat (n + 32)
  else if 1040 ≤ n ∧ n ≤ 1071 then Char.ofNat (n + 32)
  else if 1024 ≤ n ∧ n ≤ 1039 then Char.ofNat (n + 80)
  else c

/-- One character of Python `str.lower`, which applies the full Unicode
case mapping.  Under that mapping `LATIN CAPITAL LETTER I WITH DOT
ABOVE` (U+0130) is the one character whose lower case is longer — `i`
followed by `COMBINING DOT ABOVE` — so the fold is not
length-preserving; every other character maps one-to-one through the
simple mapping.  The theorems about the case-insensitive engine below
either hold for any value of this per-character table or evaluate it
only on ASCII and on U+0130, where the table agrees with Python. -/
def pyLowerChar (c : Char) : List Char :=
  if c = 'İ' then ['i', '\u0307'] else [simpleLowerChar c]

/-- Python `str.lower`: the concatenation of each character's lower
case.  Because of U+0130 the result can be longer than the input. -/
def pyLower (l : List Char) : List Char := l.flatMap pyLowerChar

/-- Whitespace characters stripped by Python `str.strip` (ASCII range). -/
def pyStripChar (c : Char) : Bool :=
  c = ' ' ∨ c = '\t' ∨ c = '\n' ∨ c = '\x0d' ∨ c = '\x0b' ∨ c = '\x0c'

/-- Python `str.strip`: drop leading and trailing whitespace. -/
def pyStrip (l : List Char) : List Char :=
  ((l.dropWhile pyStripChar).reverse.dropWhile pyStripChar).reverse

/-! ## MatchEngine — `_find_matches_in_text` (src/pdfserch4.py lines 244-264)

A compiled regular-expression pattern is an external object produced by
Python's `re` library; it is modelled by the function the program
consumes it through, namely the span list its `finditer` produces on a
text. -/

/-- The behaviour of a compiled `re` pattern object, as consumed by the
program: the list of `(start, end)` spans `finditer` yields on a text. -/
def Matcher : Type := List Char → List (Nat × Nat)

/-- The repeated-forward-search loop of the literal branch of
`_find_matches_in_text`: `idx = text.find(search_text)` and then, while a
hit exists, record `(idx, idx + L)` and continue from `idx + 1`.  The
fuel argument dominates the number of iterations, which is at most
`text.length + 1` because each found index strictly exceeds the previous
one and never exceeds `text.length`. -/
def findLoop (text pat : List Char) : Nat → Nat → List (Nat × Nat)
  | _, 0 => []
  | start, fuel + 1 =>
    match pyFind text pat start with
    | none => []
    | some i => (i, i + pat.length) :: findLoop text pat (i + 1) fuel

/-- Literal substring search of `_find_matches_in_text`. -/
def litSearch (text pat : List Char) : List (Nat × Nat) :=
  findLoop text pat 0 (text.length + 1)

/-- All offsets at or after `start` at which `pat` occurs in `text`, in
ascending order: the reference value the forward-search loop is proved
to compute. -/
def occPositions (text pat : List Char) (start : Nat) : List Nat :=
  (List.range (text.length + 1)).filter
    (fun i => decide (start ≤ i) && pat.isPrefixOf (text.drop i))

/-- Embedding of `_find_matches_in_text`.  The regex branch returns the
spans of the compiled pattern's `finditer`; the literal branches run the
forward-search loop, on case-folded copies when case-insensitive. -/
def find_matches_in_text (text searchText : List Char) (case_sensitive : Bool)
    (patt : Option Matcher) : List (Nat × Nat) :=
  match patt with
  | some p => p text
  | none =>
    if case_sensitive then litSearch text searchText
    else litSearch (pyLower text) (pyLower searchText)

/-! ## SnippetBuilder — `_make_snippet` (src/pdfserch4.py lines 267-276) -/

/-- The two `.replace` calls of `_make_snippet`: newline and
carriage-return characters become spaces. -/
def sanitizeChar (c : Char) : Char := if c = '\n' ∨ c = '\x0d' then ' ' else c

/-- Replace every newline and carriage-return character by a space. -/
def sanitize (l : List Char) : List Char := l.map sanitizeChar

/-- The truncation marker appended or prefixed by `_make_snippet`. -/
def dots : List Char := ['.', '.', '.']

/-- Embedding of `_make_snippet`: slice `context` characters around the
span (clamped to the text), replace line breaks by spaces, and add the
`...` markers when the slice does not touch the corresponding end of the
text. -/
def make_snippet (text : List Char) (span : Nat × Nat) (context : Nat := 30) : List Char :=
  let s := span.1
  let e := span.2
  let start := s - context
  let stop := min text.length (e + context)
  let snip := sanitize (pySlice text start stop)
  let snip := if 0 < start then dots ++ snip else snip
  if stop < text.length then snip ++ dots else snip

/-! ## GUI input validation (src/pdfserch4.py lines 566-575)

Only the search-text check of `PdfSearchApp._validate_inputs` is relevant
to the claims: the stripped search string must be non-empty. -/

/-- The search-text check of `_validate_inputs`: Python
`if not search: return False` on the stripped entry value. -/
def validate_search_text (s : List Char) : Bool := !(pyStrip s).isEmpty

/-! ## ContentTextDecoder — `_pdf_unescape_string` (src/pdfserch4.py lines 74-123) -/

/-- Octal value of a list of ASCII octal-digit bytes, as computed by
Python `int(bytes(oct_digits), 8)`. -/
def octVal (ds : List Nat) : Nat := ds.foldl (fun a d => a * 8 + (d - 48)) 0

/-- Python `bytearray.append`, which raises `ValueError` on a value
above 255; the program catches that error and drops the byte. -/
def appendByte (v : Nat) (rest : List Nat) : List Nat :=
  if v ≤ 255 then v :: rest else rest

/-- Is the byte an ASCII octal digit `0`-`7`? -/
def isOctDigit (b : Nat) : Bool := 48 ≤ b ∧ b ≤ 55

/-- The inner `for _ in range(2)` of the octal branch: collect up to
two further octal digits, returning them with the rest of the input. -/
def takeOct2 : List Nat → List Nat × List Nat
  | [] => ([], [])
  | d2 :: rest3 =>
    if isOctDigit d2 then
      match rest3 with
      | [] => ([d2], [])
      | d3 :: rest4 =>
        if isOctDigit d3 then ([d2, d3], rest4) else ([d2], rest3)
    else ([], d2 :: rest3)

/-- Collecting octal digits never lengthens the remaining input. -/
theorem takeOct2_length_le (l : List Nat) : (takeOct2 l).2.length ≤ l.length := by
  match l with
  | [] => simp [takeOct2]
  | d2 :: rest3 =>
    simp only [takeOct2]
    split
    · match rest3 with
      | [] => simp
      | d3 :: rest4 => dsimp only; split <;> simp <;> omega
    · simp

/-- The escape-decoding loop of `_pdf_unescape_string`, producing the
decoded byte sequence.  A backslash that is the last byte is emitted
literally (the loop's `i + 1 < n` guard fails). -/
def pdf_unescape_bytes : List Nat → List Nat
  | [] => []
  | c :: rest =>
    if c = 92 then
      match rest with
      | [] => [92]
      | esc :: rest2 =>
        if esc = 40 ∨ esc = 41 ∨ esc = 92 then esc :: pdf_unescape_bytes rest2
        else if esc = 110 then 10 :: pdf_unescape_bytes rest2
        else if esc = 114 then 13 :: pdf_unescape_bytes rest2
        else if esc = 116 then 9 :: pdf_unescape_bytes rest2
        else if esc = 98 then 8 :: pdf_unescape_bytes rest2
        else if esc = 102 then 12 :: pdf_unescape_bytes rest2
        else if isOctDigit esc then
          appendByte (octVal (esc :: (takeOct2 rest2).1))
            (pdf_unescape_bytes (takeOct2 rest2).2)
        else esc :: pdf_unescape_bytes rest2
    else c :: pdf_unescape_bytes rest
termination_by l => l.length
decreasing_by
  all_goals simp only [List.length_cons]
  all_goals first
    | omega
    | exact Nat.lt_of_le_of_lt (takeOct2_length_le _) (by omega)

/-- Is the byte a UTF-8 continuation byte `10xxxxxx`? -/
def utf8Cont (b : Nat) : Bool := 128 ≤ b ∧ b ≤ 191

/-- Strict UTF-8 decoding of a byte sequence, `none` on any invalid
sequence, mirroring Python `bytes.decode` with the default strict error
handler: continuation bytes are checked, and overlong forms, surrogate
code points and values beyond `U+10FFFF` are rejected through the
restricted ranges of the first two bytes.  The fuel argument only makes
the recursion structural; every step consumes at least one byte, so fuel
equal to the input length always suffices. -/
def utf8DecodeLoop : Nat → List Nat → Option (List Char)
  | _, [] => some []
  | 0, _ :: _ => none
  | fuel + 1, b1 :: rest =>
    if b1 ≤ 127 then
      (utf8DecodeLoop fuel rest).map (fun cs => Char.ofNat b1 :: cs)
    else if 194 ≤ b1 ∧ b1 ≤ 223 then
      match rest with
      | b2 :: rest2 =>
        if utf8Cont b2 then
          (utf8DecodeLoop fuel rest2).map (fun cs => Char.ofNat ((b1 - 192) * 64 + (b2 - 128)) :: cs)
        else none
      | _ => none
    else if 224 ≤ b1 ∧ b1 ≤ 239 then
      match rest with
      | b2 :: b3 :: rest3 =>
        let lo2 := if b1 = 224 then 160 else 128
        let hi2 := if b1 = 237 then 159 else 191
        if (lo2 ≤ b2 ∧ b2 ≤ hi2) ∧ utf8Cont b3 then
          (utf8DecodeLoop fuel rest3).map (fun cs =>
            Char.ofNat ((b1 - 224) * 4096 + (b2 - 128) * 64 + (b3 - 128)) :: cs)
        else none
      | _ => none
    else if 240 ≤ b1 ∧ b1 ≤ 244 then
      match rest with
      | b2 :: b3 :: b4 :: rest4 =>
        let lo2 := if b1 = 240 then 144 else 128
        let hi2 := if b1 = 244 then 143 else 191
        if (lo2 ≤ b2 ∧ b2 ≤ hi2) ∧ utf8Cont b3 ∧ utf8Cont b4 then
          (utf8DecodeLoop fuel rest4).map (fun cs =>
            Char.ofNat ((b1 - 240) * 262144 + (b2 - 128) * 4096 + (b3 - 128) * 64 + (b4 - 128)) :: cs)
        else none
      | _ => none
    else none

/-- Python `bytes.decode("utf-8")` with the strict handler. -/
def utf8Decode (l : List Nat) : Option (List Char) := utf8DecodeLoop l.length l

/-- Python `bytes.decode("latin-1", errors="ignore")`: every byte maps
to the character with the same code point, so it never fails (the
`ignore` handler is never exercised). -/
def latin1Decode (l : List Nat) : List Char := l.map Char.ofNat

/-- Embedding of `_pdf_unescape_string`: decode escapes, then interpret
the bytes as UTF-8, falling back to latin-1 when UTF-8 decoding fails. -/
def pdf_unescape_string (b : List Nat) : List Char :=
  let us := pdf_unescape_bytes b
  match utf8Decode us with
  | some s => s
  | none => latin1Decode us

/-! ## Byte-level scanners for the pre-compiled regular expressions
(src/pdfserch4.py lines 65-71)

Each of the program's byte regexes is simple enough that greedy
maximal-munch scanning is exactly equivalent to the backtracking regex:
in every pattern a maximal run of one character class is followed by a
byte outside that class, so shrinking the run can never enable the
continuation. -/

/-- ASCII byte values of a string literal (all patterns are ASCII). -/
def asciiBytes (s : String) : List Nat := s.toList.map Char.toNat

/-- Bytes matched by `\s` in a bytes regex. -/
def isWSB (b : Nat) : Bool := b = 32 ∨ b = 9 ∨ b = 10 ∨ b = 13 ∨ b = 12 ∨ b = 11

/-- Bytes matched by `\d` in a bytes regex. -/
def isDigitB (b : Nat) : Bool := 48 ≤ b ∧ b ≤ 57

/-- Bytes matched by `\w` in a bytes regex (word characters). -/
def isWordB (b : Nat) : Bool :=
  isDigitB b ∨ (65 ≤ b ∧ b ≤ 90) ∨ (97 ≤ b ∧ b ≤ 122) ∨ b = 95

/-- Decimal value of a list of ASCII digit bytes, as `int` computes it. -/
def decVal (ds : List Nat) : Nat := ds.foldl (fun a d => a * 10 + (d - 48)) 0

/-- Does `_RE_IS_PAGE` (`/Type\s*/Page\b`) match at the head of `l`? -/
def matchIsPageAt (l : List Nat) : Bool :=
  (asciiBytes "/Type").isPrefixOf l &&
  (let l2 := (l.drop 5).dropWhile isWSB
   (asciiBytes "/Page").isPrefixOf l2 &&
   (match l2.drop 5 with
    | [] => true
    | b :: _ => !isWordB b))

/-- Run a positional matcher at every suffix, left to right, returning
the first success: the search strategy of `re.search`. -/
def searchFirst {α : Type} (f : List Nat → Option α) : List Nat → Option α
  | [] => f []
  | b :: rest =>
    match f (b :: rest) with
    | some x => some x
    | none => searchFirst f rest

/-- Does `_RE_IS_PAGE` match anywhere in the object body
(`_RE_IS_PAGE.search(body)`)? -/
def containsPageMarker (l : List Nat) : Bool :=
  (searchFirst (fun suf => if matchIsPageAt suf then some () else none) l).isSome

/-- Does `_RE_CONTENTS_SINGLE` (`/Contents\s+(\d+)\s+0\s+R`) match at
the head of `l`?  Returns the captured object id. -/
def matchContentsSingleAt (l : List Nat) : Option Nat :=
  if (asciiBytes "/Contents").isPrefixOf l then
    let l1 := l.drop 9
    if (l1.takeWhile isWSB).isEmpty then none else
    let l2 := l1.dropWhile isWSB
    let ds := l2.takeWhile isDigitB
    if ds.isEmpty then none else
    let l3 := l2.dropWhile isDigitB
    if (l3.takeWhile isWSB).isEmpty then none else
    match l3.dropWhile isWSB with
    | 48 :: l4 =>
      if (l4.takeWhile isWSB).isEmpty then none else
      match l4.dropWhile isWSB with
      | 82 :: _ => some (decVal ds)
      | _ => none
    | _ => none
  else none

/-- Does `_RE_CONTENTS_ARRAY` (`/Contents\s*\[(.*?)\]` with `re.S`)
match at the head of `l`?  Returns the captured bytes, which run up to
the first `]` after the `[` (the lazy group). -/
def matchContentsArrayAt (l : List Nat) : Option (List Nat) :=
  if (asciiBytes "/Contents").isPrefixOf l then
    match (l.drop 9).dropWhile isWSB with
    | 91 :: l2 => if l2.contains 93 then some (l2.takeWhile (fun b => b ≠ 93)) else none
    | _ => none
  else none

/-- Does `_RE_INDIRECT` (`(\d+)\s+0\s+R`) match at the head of `l`?
Returns the captured id together with the remainder after the match. -/
def matchIndirectAt (l : List Nat) : Option (Nat × List Nat) :=
  let ds := l.takeWhile isDigitB
  if ds.isEmpty then none else
  let l1 := l.dropWhile isDigitB
  if (l1.takeWhile isWSB).isEmpty then none else
  match l1.dropWhile isWSB with
  | 48 :: l2 =>
    if (l2.takeWhile isWSB).isEmpty then none else
    match l2.dropWhile isWSB with
    | 82 :: l3 => some (decVal ds, l3)
    | _ => none
  | _ => none

/-- `_RE_INDIRECT.findall`: all non-overlapping matches left to right,
each search resuming after the end of the previous match.  Fuel bounds
the iteration count; every step either advances one byte or consumes a
whole match (at least five bytes), so `l.length + 1` always suffices. -/
def findAllIndirect : List Nat → Nat → List Nat
  | _, 0 => []
  | l, fuel + 1 =>
    match matchIndirectAt l with
    | some (v, rest) => v :: findAllIndirect rest fuel
    | none =>
      match l with
      | [] => []
      | _ :: t => findAllIndirect t fuel

/-! ## PageResolver — `/Contents` resolution (src/pdfserch4.py lines 188-203) -/

/-- Content-object references of one page body: the single-reference
form is tried first, then the array form, as in the loop of
`extract_text_per_page_fast`. -/
def resolveContents (body : List Nat) : List Nat :=
  match searchFirst matchContentsSingleAt body with
  | some v => [v]
  | none =>
    match searchFirst matchContentsArrayAt body with
    | some inner => findAllIndirect inner (inner.length + 1)
    | none => []

/-! ## StreamExtractor — `_extract_streams_from_object`
(src/pdfserch4.py lines 126-157)

The two `zlib.decompress` attempts call an external library; they are
passed in as functions returning `none` where the library would raise. -/

/-- The external decompression primitives: `inflate` models
`zlib.decompress(raw)` and `inflateRaw` models
`zlib.decompress(raw, -15)`, each `none` where Python raises. -/
structure Ext where
  inflate : List Nat → Option (List Nat)
  inflateRaw : List Nat → Option (List Nat)

/-- Decompression with fallback: try `zlib.decompress`, then the raw
variant, and keep the original bytes when both fail — only when the
header advertises `/FlateDecode`. -/
def decodeStream (E : Ext) (header raw : List Nat) : List Nat :=
  if pyContains header (asciiBytes "/FlateDecode") then
    match E.inflate raw with
    | some d => d
    | none =>
      match E.inflateRaw raw with
      | some d => d
      | none => raw
  else raw

/-- One step of the `stream` / `endstream` scanning loop: from `pos`,
locate the next payload and return it with the position after its
`endstream`. -/
def nextStream (E : Ext) (objBytes : List Nat) (pos : Nat) : Option (List Nat × Nat) :=
  match pyFind objBytes (asciiBytes "stream") pos with
  | none => none
  | some sIdx =>
    let afterKw := sIdx + 6
    let sEnd :=
      match objBytes.drop afterKw with
      | 13 :: 10 :: _ => afterKw + 2
      | 13 :: _ => afterKw + 1
      | 10 :: _ => afterKw + 1
      | _ => afterKw
    match pyFind objBytes (asciiBytes "endstream") sEnd with
    | none => none
    | some eIdx =>
      some (decodeStream E (pySlice objBytes 0 sIdx) (pySlice objBytes sEnd eIdx), eIdx + 9)

/-- The scanning loop of `_extract_streams_from_object`.  Each
iteration advances the position by at least nine bytes, so fuel
`objBytes.length + 1` always suffices. -/
def streamLoop (E : Ext) (objBytes : List Nat) : Nat → Nat → List (List Nat)
  | _, 0 => []
  | pos, fuel + 1 =>
    match nextStream E objBytes pos with
    | none => []
    | some (data, nxt) => data :: streamLoop E objBytes nxt fuel

/-- Embedding of `_extract_streams_from_object`. -/
def extract_streams_from_object (E : Ext) (objBytes : List Nat) : List (List Nat) :=
  streamLoop E objBytes 0 (objBytes.length + 1)

/-! ## ContentTextDecoder — `_extract_text_from_content_stream`
(src/pdfserch4.py lines 160-169) -/

/-- The scan of `\((?:\\.|[^\\])*?\)` from just after an opening
parenthesis: the lazy body closes at the first reachable `)`, a
backslash consumes the following byte, and reaching the end of input
means no match. -/
def parenScan : List Nat → List Nat → Option (List Nat × List Nat)
  | _, [] => none
  | acc, 41 :: rest => some (acc.reverse, rest)
  | acc, 92 :: b :: rest => parenScan (b :: 92 :: acc) rest
  | _, [92] => none
  | acc, b :: rest => parenScan (b :: acc) rest

/-- All matches of `_RE_PAREN_STRING` in a section, returning each
match's interior (`s[1:-1]` in the program).  When the scan from some
`(` runs off the end of the input, no later start position can match
either, so the search stops.  Fuel dominates the number of visited
positions, so `l.length + 1` suffices. -/
def parenStrings : List Nat → Nat → List (List Nat)
  | _, 0 => []
  | [], _ => []
  | 40 :: rest, fuel + 1 =>
    match parenScan [] rest with
    | some (inner, after) => inner :: parenStrings after fuel
    | none => []
  | _ :: rest, fuel + 1 => parenStrings rest fuel

/-- One match of `_RE_BT_ET` (`BT(.*?)ET` with `re.S`) from `pos`: the
leftmost `BT`, with the lazy interior ending at the first `ET` after
it. -/
def nextBtEt (data : List Nat) (pos : Nat) : Option (List Nat × Nat) :=
  match pyFind data (asciiBytes "BT") pos with
  | none => none
  | some b =>
    match pyFind data (asciiBytes "ET") (b + 2) with
    | none => none
    | some e => some (pySlice data (b + 2) e, e + 2)

/-- The `finditer` loop over `_RE_BT_ET` matches.  Each iteration
advances the position by at least four bytes, so `data.length + 1` fuel
suffices. -/
def btLoop (data : List Nat) : Nat → Nat → List (List Nat)
  | _, 0 => []
  | pos, fuel + 1 =>
    match nextBtEt data pos with
    | none => []
    | some (sec, nxt) => sec :: btLoop data nxt fuel

/-- Embedding of `_extract_text_from_content_stream`: every
parenthesized literal string inside every `BT`...`ET` region, decoded
and concatenated with no separator. -/
def extract_text_from_content_stream (data : List Nat) : List Char :=
  ((btLoop data 0 (data.length + 1)).flatMap
    (fun sec => parenStrings sec (sec.length + 1))).flatMap pdf_unescape_string

/-! ## PageExtractionPipeline — `extract_text_per_page_fast`
(src/pdfserch4.py lines 172-219)

The pipeline is embedded from the scanned object table onward: the
byte-level object-boundary scan (`_RE_OBJ` with the following `endobj`
search) produces a Python dict `id -> body bytes`, modelled as an
association list in insertion order with distinct keys. -/

/-- Python `dict.get` on the object table. -/
def dictGet (objects : List (Nat × List Nat)) (k : Nat) : Option (List Nat) :=
  (objects.find? (fun ob => ob.1 = k)).map (fun ob => ob.2)

/-- Python `"\n".join`. -/
def joinNL : List (List Char) → List Char
  | [] => []
  | [t] => t
  | t :: rest => t ++ '\n' :: joinNL rest

/-- Text of one page: for each referenced content object present in the
table and non-empty (`if not obj_bytes: continue`), the texts of its
streams, keeping only non-empty ones (`if ttxt:`), joined with
newlines. -/
def pageTextOf (E : Ext) (objects : List (Nat × List Nat)) (contents : List Nat) : List Char :=
  joinNL ((contents.flatMap (fun cid =>
    match dictGet objects cid with
    | none => []
    | some body =>
      if body.isEmpty then []
      else (extract_streams_from_object E body).map extract_text_from_content_stream)).filter
      (fun s => !s.isEmpty))

/-- Embedding of `extract_text_per_page_fast` from the object table
onward: the page objects are the table entries whose body matches the
page marker, in table order, and the result maps the 1-based page index
to the page's text, one entry per page object. -/
def extract_text_per_page_fast (E : Ext) (objects : List (Nat × List Nat)) :
    List (Nat × List Char) :=
  let pages := objects.filter (fun ob => containsPageMarker ob.2)
  List.enumFrom 1 (pages.map (fun ob => pageTextOf E objects (resolveContents ob.2)))

/-! ## SearchCoordinator — `_worker_search_file` and `main_processor`
(src/pdfserch4.py lines 279-376)

Concurrency is modelled by making the schedule explicit: each file task
and the completion loop read a shared boolean cancellation flag at
well-defined checkpoints, so a run is determined by the sequence of
values each reader observes (a function from its check index to `Bool`)
and by the order in which the pool delivers completed tasks (a list of
file paths).  A monotone flag — one that stays set once set — models the
one-shot `threading.Event`.  The filesystem and the preceding extraction
are a function from path to either the page map or the exception the
task would raise. -/

/-- A SearchResult hit row: the dict `{file, page, snippet}` appended
to `res` in `_worker_search_file`. -/
structure SearchHit where
  file : String
  page : Nat
  snippet : List Char
deriving DecidableEq

/-- A SearchResult error row: the dict `{file, error, trace}` appended
to `err` in `_worker_search_file`.  It has no page field. -/
structure SearchErr where
  file : String
  error : List Char
  trace : List Char
deriving DecidableEq

/-- A Python exception value as the worker observes it: class name,
message and formatted traceback. -/
structure PyExc where
  name : List Char
  msg : List Char
  trace : List Char

/-- The f-string `f"{type(e).__name__}: {e}"`. -/
def formatExc (e : PyExc) : List Char := e.name ++ ':' :: ' ' :: e.msg

/-- The error row recorded for a failed file task. -/
def errRecord (fpath : String) (e : PyExc) : SearchErr :=
  ⟨fpath, formatExc e, e.trace⟩

/-- The filesystem together with the extraction step: what
`extract_text_per_page_fast(fpath)` returns for each path, or the
exception it raises (opening or mapping the file can fail). -/
def FileSys : Type := String → Except PyExc (List (Nat × List Char))

/-- The hit rows one page contributes: one per span, with the default
context of 30 used at the `_make_snippet` call site. -/
def page_hits (fpath : String) (searchText : List Char) (cs : Bool) (patt : Option Matcher)
    (pno : Nat) (ptext : List Char) : List SearchHit :=
  (find_matches_in_text ptext searchText cs patt).map
    (fun sp => ⟨fpath, pno, make_snippet ptext sp 30⟩)

/-- The page loop of `_worker_search_file`: before each page the
cancellation flag is read (`cw k` is the value the k-th read observes);
a set flag breaks out of the loop, an empty page is skipped, and
otherwise the page's hits are appended. -/
def worker_pages_loop (cw : Nat → Bool) (fpath : String) (searchText : List Char) (cs : Bool)
    (patt : Option Matcher) : List (Nat × List Char) → Nat → List SearchHit
  | [], _ => []
  | (pno, ptext) :: rest, k =>
    if cw k then []
    else
      (if ptext.isEmpty then [] else page_hits fpath searchText cs patt pno ptext) ++
        worker_pages_loop cw fpath searchText cs patt rest (k + 1)

/-- Embedding of `_worker_search_file`: an initial flag check, then the
extraction (whose exception becomes a single error row), then the page
loop.  The function is total: no exception escapes the task. -/
def worker_search_file (cw : Nat → Bool) (fs : FileSys) (fpath : String)
    (searchText : List Char) (cs : Bool) (patt : Option Matcher) :
    List SearchHit × List SearchErr :=
  if cw 0 then ([], [])
  else
    match fs fpath with
    | .error e => ([], [errRecord fpath e])
    | .ok pages => (worker_pages_loop cw fpath searchText cs patt pages 1, [])

/-- The completion loop of `main_processor`: task results arrive in
pool-completion order; before collecting each one the coordinator polls
the cancellation flag (`cc j` is the value of the j-th poll) and breaks
when it is set; otherwise the task's hits and errors are appended.  The
`except` branch around `fut.result()` is unreachable here because the
task body is total. -/
def coord_loop (cc : Nat → Bool) : List (List SearchHit × List SearchErr) → Nat →
    List SearchHit × List SearchErr
  | [], _ => ([], [])
  | (res, err) :: rest, j =>
    if cc j then ([], [])
    else
      let acc := coord_loop cc rest (j + 1)
      (res ++ acc.1, err ++ acc.2)

/-- The post-compilation body of `main_processor`: one task per file,
collected in completion order.  `cwOf f` is the flag sequence the task
for file `f` observes. -/
def main_processor_core (cc : Nat → Bool) (cwOf : String → Nat → Bool) (fs : FileSys)
    (completion : List String) (searchText : List Char) (cs : Bool) (patt : Option Matcher) :
    List SearchHit × List SearchErr :=
  coord_loop cc (completion.map (fun f => worker_search_file (cwOf f) fs f searchText cs patt)) 0

/-- The behaviour of `re.compile`: a compiled matcher, or the
`re.error` message raised on invalid syntax. -/
def ReCompile : Type := List Char → Bool → Except (List Char) Matcher

/-- Embedding of `_compile_pattern`: `None` when regex mode is off,
otherwise the compiled pattern; a compile failure propagates. -/
def compile_pattern (rc : ReCompile) (searchText : List Char) (cs : Bool) (useRegex : Bool) :
    Except (List Char) (Option Matcher) :=
  if useRegex then
    match rc searchText cs with
    | .ok m => .ok (some m)
    | .error e => .error e
  else .ok none

/-- Embedding of `main_processor`: compile the pattern first — an
invalid regular expression aborts the run here, before any task is
dispatched — then run the pool. -/
def main_processor (rc : ReCompile) (cc : Nat → Bool) (cwOf : String → Nat → Bool)
    (fs : FileSys) (completion : List String) (searchText : List Char) (cs : Bool)
    (useRegex : Bool) : Except (List Char) (List SearchHit × List SearchErr) :=
  match compile_pattern rc searchText cs useRegex with
  | .error e => .error e
  | .ok patt => .ok (main_processor_core cc cwOf fs completion searchText cs patt)

/-! ## Claim formalisations

Predicates and comparison definitions that state claims in the words of
the specification, to be compared with the embedded program. -/

/-- A monotone cancellation flag: once a read observes `true`, every
later read does too (the one-shot `threading.Event`). -/
def MonotoneFlag (c : Nat → Bool) : Prop := ∀ i j, i ≤ j → c i = true → c j = true

/-- The flag sequence of a run in which cancellation is never
requested. -/
def noCancel : Nat → Bool := fun _ => false

/-- Claim C1's reading of the snippet contract: at most ten characters
of text before the match, the match, at most `context` characters after
it, line breaks replaced by spaces — and nothing else. -/
def snippetClaimC1 (text : List Char) (s e context : Nat) : Prop :=
  make_snippet text (s, e) context =
    sanitize ((text.take s).drop (s - 10) ++ pySlice text s e ++ (text.drop e).take context)

/-- Spans pairwise ordered by start offset, ascending. -/
def spansOrdered (spans : List (Nat × Nat)) : Prop :=
  List.Pairwise (fun a b : Nat × Nat => a.1 ≤ b.1) spans

/-- No two spans overlap: each ends before the next begins. -/
def spansDisjoint (spans : List (Nat × Nat)) : Prop :=
  List.Pairwise (fun a b : Nat × Nat => a.2 ≤ b.1) spans

/-- Every span lies inside a text of length `n`, with start before
end. -/
def spansWellFormed (n : Nat) (spans : List (Nat × Nat)) : Prop :=
  ∀ sp ∈ spans, sp.1 ≤ sp.2 ∧ sp.2 ≤ n

/-- Does the (lower-cased, for the insensitive mode) pattern occur at
offset `i` of the text? -/
def occursAt (text pat : List Char) (i : Nat) : Prop :=
  i ≤ text.length ∧ pat.isPrefixOf (text.drop i) = true

/-- The amended snippet contract, following the code: up to `context`
characters before the match, the match, up to `context` characters
after, line breaks replaced by spaces, with a leading `...` marker when
text before the window was cut and a trailing one when text after it
was cut. -/
def snippetSpecAmended (text : List Char) (s e context : Nat) : List Char :=
  (if context < s then dots else []) ++
    sanitize ((text.take s).drop (s - context)) ++
    sanitize (pySlice text s e) ++
    sanitize ((text.drop e).take context) ++
    (if e + context < text.length then dots else [])

/-! ## General list lemmas -/

/-- A contiguous slice splits at any interior point. -/
theorem slice_split {α : Type} (l : List α) (a b c : Nat) (hab : a ≤ b) (hbc : b ≤ c) :
    (l.drop a).take (c - a) = (l.drop a).take (b - a) ++ (l.drop b).take (c - b) := by
  have hc : c - a = (b - a) + (c - b) := by omega
  rw [hc, List.take_add, List.drop_drop, Nat.add_sub_cancel' hab]

/-- Dropping from a prefix is taking from a suffix. -/
theorem take_drop_comm {α : Type} (l : List α) (a b : Nat) :
    (l.take b).drop a = (l.drop a).take (b - a) := List.drop_take b a l

/-- The head of a filtered strictly-sorted list splits it off: the rest
is the filter restricted to larger elements. -/
theorem filter_sorted_head (l : List Nat) (q : Nat → Bool) (i : Nat)
    (hl : List.Pairwise (· < ·) l) (h : (l.filter q).head? = some i) :
    l.filter q = i :: l.filter (fun j => decide (i < j) && q j) := by
  induction l with
  | nil => simp [List.filter] at h
  | cons a t ih =>
    have hat : ∀ b ∈ t, a < b := fun b hb => (List.pairwise_cons.mp hl).1 b hb
    have ht : List.Pairwise (· < ·) t := (List.pairwise_cons.mp hl).2
    by_cases hqa : q a
    · rw [List.filter_cons_of_pos hqa] at h ⊢
      have hia : a = i := by simpa using h
      subst hia
      have hrest : t.filter (fun j => decide (a < j) && q j) = t.filter q := by
        apply List.filter_congr
        intro b hb
        simp [hat b hb]
      rw [List.filter_cons_of_neg (by simp), hrest]
    · rw [List.filter_cons_of_neg hqa] at h
      have hmem : i ∈ t.filter q := by
        obtain ⟨ys, hys⟩ := List.head?_eq_some_iff.mp h
        rw [hys]
        exact List.mem_cons_self _ _
      have hit : i ∈ t := List.mem_of_mem_filter hmem
      have hai : a < i := hat i hit
      rw [List.filter_cons_of_neg hqa, List.filter_cons_of_neg (by simp [hqa])]
      exact ih ht h

/-! ## SnippetBuilder lemmas -/

/-- The snippet window decomposes into the text before the match, the
match, and the text after it. -/
theorem snippet_window_split (text : List Char) (s e context : Nat)
    (hse : s ≤ e) (hel : e ≤ text.length) :
    pySlice text (s - context) (min text.length (e + context)) =
      (text.take s).drop (s - context) ++ (text.drop s).take (e - s) ++
        (text.drop e).take context := by
  have hstart : s - context ≤ s := Nat.sub_le s context
  have hstop : e ≤ min text.length (e + context) := le_min hel (Nat.le_add_right e context)
  unfold pySlice
  rw [slice_split text (s - context) s (min text.length (e + context)) hstart
      (le_trans hse hstop),
    slice_split text s e (min text.length (e + context)) hse hstop, ← List.append_assoc,
    take_drop_comm]
  congr 1
  rw [List.take_eq_take]
  simp only [List.length_drop]
  omega

/-- The code's `_make_snippet` computes exactly the amended snippet
contract. -/
theorem make_snippet_eq_amended (text : List Char) (s e context : Nat)
    (hse : s ≤ e) (hel : e ≤ text.length) :
    make_snippet text (s, e) context = snippetSpecAmended text s e context := by
  have e1 : (0 < s - context) ↔ (context < s) := by omega
  have e2 : (min text.length (e + context) < text.length) ↔ (e + context < text.length) := by
    omega
  unfold make_snippet snippetSpecAmended
  dsimp only
  rw [snippet_window_split text s e context hse hel]
  simp only [sanitize, e1, e2]
  by_cases h1 : context < s <;> by_cases h2 : e + context < text.length <;>
    simp [h1, h2, pySlice, List.map_append, List.append_assoc, List.map_take, List.map_drop]

/-! ## MatchEngine lemmas -/

/-- Occurrence positions are strictly sorted. -/
theorem occPositions_sorted (text pat : List Char) (start : Nat) :
    List.Pairwise (· < ·) (occPositions text pat start) :=
  List.Pairwise.sublist (List.filter_sublist _) (List.pairwise_lt_range _)

/-- Membership in the occurrence list. -/
theorem mem_occPositions {text pat : List Char} {start i : Nat} :
    i ∈ occPositions text pat start ↔
      start ≤ i ∧ i ≤ text.length ∧ pat.isPrefixOf (text.drop i) = true := by
  simp only [occPositions, List.mem_filter, List.mem_range, Nat.lt_succ_iff,
    Bool.and_eq_true, decide_eq_true_eq]
  tauto

/-- No occurrences beyond the end of the text. -/
theorem occPositions_eq_nil (text pat : List Char) (start : Nat) (h : text.length < start) :
    occPositions text pat start = [] := by
  apply List.filter_eq_nil_iff.mpr
  intro a ha
  simp only [List.mem_range, Nat.lt_succ_iff] at ha
  simp only [Bool.and_eq_true, decide_eq_true_eq, not_and]
  omega

/-- The Python find primitive returns the least occurrence. -/
theorem pyFind_eq_head (text pat : List Char) (start : Nat) :
    pyFind text pat start = (occPositions text pat start).head? := rfl

/-- The forward-search loop, given enough fuel, returns one span per
occurrence position at or after its start, in ascending order. -/
theorem findLoop_eq (text pat : List Char) :
    ∀ fuel start, text.length + 1 ≤ fuel + start →
      findLoop text pat start fuel =
        (occPositions text pat start).map (fun i => (i, i + pat.length)) := by
  intro fuel
  induction fuel with
  | zero =>
    intro start h
    rw [occPositions_eq_nil text pat start (by omega)]
    rfl
  | succ fuel ih =>
    intro start h
    rw [findLoop, pyFind_eq_head]
    cases hh : (occPositions text pat start).head? with
    | none =>
      rw [List.head?_eq_none_iff.mp hh]
      rfl
    | some i =>
      have hmem : i ∈ occPositions text pat start := by
        obtain ⟨ys, hys⟩ := List.head?_eq_some_iff.mp hh
        rw [hys]
        exact List.mem_cons_self _ _
      obtain ⟨hsi, hin, hpre⟩ := mem_occPositions.mp hmem
      have hdec := filter_sorted_head (List.range (text.length + 1))
        (fun j => decide (start ≤ j) && pat.isPrefixOf (text.drop j)) i
        (List.pairwise_lt_range _) hh
      have halign : (List.range (text.length + 1)).filter
          (fun j => decide (i < j) && (decide (start ≤ j) && pat.isPrefixOf (text.drop j))) =
          occPositions text pat (i + 1) := by
        apply List.filter_congr
        intro j hj
        by_cases h1 : i < j
        · have h2 : start ≤ j := by omega
          have h3 : i + 1 ≤ j := by omega
          simp [h1, h2, h3]
        · have h3 : ¬ i + 1 ≤ j := by omega
          simp [h1, h3]
      have hdec2 : occPositions text pat start = i :: (List.range (text.length + 1)).filter
          (fun j => decide (i < j) && (decide (start ≤ j) && pat.isPrefixOf (text.drop j))) :=
        hdec
      rw [hdec2, halign, List.map_cons]
      show (i, i + pat.length) :: findLoop text pat (i + 1) fuel = _
      rw [ih (i + 1) (by omega)]

/-- The literal search returns one span per occurrence of the pattern,
in ascending order. -/
theorem litSearch_eq (text pat : List Char) :
    litSearch text pat = (occPositions text pat 0).map (fun i => (i, i + pat.length)) :=
  findLoop_eq text pat (text.length + 1) 0 (by omega)

/-- An occurrence fits inside the text. -/
theorem occ_add_length_le {text pat : List Char} {start i : Nat}
    (h : i ∈ occPositions text pat start) : i + pat.length ≤ text.length := by
  obtain ⟨h1, h2, h3⟩ := mem_occPositions.mp h
  have hl := (List.isPrefixOf_iff_prefix.mp h3).length_le
  simp only [List.length_drop] at hl
  omega

/-! ## Claim C1 — snippet construction -/

/-- C1 (counterexample): the snippet builder does not keep only ten
characters before the match.  For a match at offset 13 of a
fourteen-character text with the default context of 30, the code keeps
all thirteen preceding characters, while the claimed form keeps ten. -/
theorem C1_cex : ¬ snippetClaimC1 ("aaaaaaaaaaaaaX".toList) 13 14 30 := by
  unfold snippetClaimC1
  decide

/-- C1 (amended): for every page text, span with start at most end and
end inside the text, and context length, the snippet is: a leading
truncation marker when more than `context` characters precede the match,
then up to `context` characters before the match, the match, and up to
`context` characters after it — line breaks replaced by spaces — then a
trailing marker when text beyond the window remains. -/
theorem C1_amended (text : List Char) (s e context : Nat)
    (hse : s ≤ e) (hel : e ≤ text.length) :
    make_snippet text (s, e) context = snippetSpecAmended text s e context :=
  make_snippet_eq_amended text s e context hse hel

/-- C1 (witness): the amended snippet contract evaluated on a concrete
text containing a line break. -/
theorem C1_wit :
    2 ≤ 3 ∧ 3 ≤ ("ab\ncdef".toList).length ∧
      make_snippet ("ab\ncdef".toList) (2, 3) 30 = snippetSpecAmended ("ab\ncdef".toList) 2 3 30 :=
  ⟨by decide, by decide, C1_amended ("ab\ncdef".toList) 2 3 30 (by decide) (by decide)⟩

/-! ## Claim C2 — span list shape -/

/-- C2 (counterexample): two clauses of the claim fail.  Literal search
can return overlapping spans — searching `aa` in `aaa` yields `(0,2)`
and `(1,3)` — and a case-insensitive span can lie outside the input
text: for the two-character text `aİ` and pattern `i̇` the engine
searches the three-character folded text and returns `(1,3)`. -/
theorem C2_cex :
    (find_matches_in_text ("aaa".toList) ("aa".toList) true none = [(0, 2), (1, 3)] ∧
      ¬ spansDisjoint (find_matches_in_text ("aaa".toList) ("aa".toList) true none)) ∧
      (find_matches_in_text ['a', 'İ'] ['i', '\u0307'] false none = [(1, 3)] ∧
        ¬ spansWellFormed (['a', 'İ'] : List Char).length
          (find_matches_in_text ['a', 'İ'] ['i', '\u0307'] false none)) := by
  refine ⟨⟨?_, ?_⟩, ?_, ?_⟩
  · decide
  · unfold spansDisjoint
    decide
  · decide
  · unfold spansWellFormed
    decide

/-- C2 (amended): for every text, literal pattern and case flag, the
span list is ordered by start offset (in fact strictly increasing), and
every span has start at most end with both offsets inside the searched
text — the input text when case-sensitive, its case-folded copy when
case-insensitive (of equal length except for the rare expanding fold);
spans may however overlap. -/
theorem C2_amended (text st : List Char) (cs : Bool) :
    spansOrdered (find_matches_in_text text st cs none) ∧
      List.Pairwise (fun a b : Nat × Nat => a.1 < b.1) (find_matches_in_text text st cs none) ∧
      spansWellFormed (if cs then text.length else (pyLower text).length)
        (find_matches_in_text text st cs none) := by
  have main : ∀ t p : List Char,
      List.Pairwise (fun a b : Nat × Nat => a.1 < b.1) (litSearch t p) ∧
        spansWellFormed t.length (litSearch t p) := by
    intro t p
    rw [litSearch_eq]
    constructor
    · rw [List.pairwise_map]
      exact occPositions_sorted t p 0
    · intro sp hsp
      rw [List.mem_map] at hsp
      obtain ⟨i, hi, rfl⟩ := hsp
      exact ⟨Nat.le_add_right i p.length, occ_add_length_le hi⟩
  cases cs with
  | true =>
    have h := main text st
    exact ⟨List.Pairwise.imp (fun h => Nat.le_of_lt h) h.1, h.1, h.2⟩
  | false =>
    have h := main (pyLower text) (pyLower st)
    exact ⟨List.Pairwise.imp (fun h => Nat.le_of_lt h) h.1, h.1, h.2⟩

/-! ## Claim C8 — overlapping occurrences and case folding -/

/-- C8: in case-insensitive literal search, a span starting at `i` —
its end `i` plus the length of the case-folded pattern, since spans
live in the coordinates of the case-folded text — is returned exactly
when the case-folded pattern occurs at offset `i` of the case-folded
text: every occurrence, overlapping ones included, is reported.  The
concrete three-variant keyword example yields exactly three hits. -/
theorem C8_all_occurrences :
    (∀ (text st : List Char) (i : Nat),
        ((i, i + (pyLower st).length) ∈ find_matches_in_text text st false none ↔
          occursAt (pyLower text) (pyLower st) i)) ∧
      (find_matches_in_text ("xx KEYWORD yy keyword zz KeyWord ww".toList)
        ("Keyword".toList) false none).length = 3 := by
  constructor
  · intro text st i
    show (i, i + (pyLower st).length) ∈ litSearch (pyLower text) (pyLower st) ↔ _
    rw [litSearch_eq]
    constructor
    · intro hmem
      rw [List.mem_map] at hmem
      obtain ⟨j, hj, hje⟩ := hmem
      have hj1 : j = i := congrArg Prod.fst hje
      subst hj1
      obtain ⟨-, h2, h3⟩ := mem_occPositions.mp hj
      exact ⟨h2, h3⟩
    · intro hocc
      rw [List.mem_map]
      exact ⟨i, mem_occPositions.mpr ⟨Nat.zero_le i, hocc.1, hocc.2⟩, rfl⟩
  · decide

/-! ## Claim C10 — the empty pattern -/

/-- C10 (counterexample): case-insensitively the empty-pattern span
count follows the case-folded text, not the input: the one-character
text `İ` folds to two characters, so the engine returns three empty
spans, not the claimed two. -/
theorem C10_cex :
    find_matches_in_text ['İ'] [] false none = [(0, 0), (1, 1), (2, 2)] ∧
      (find_matches_in_text ['İ'] [] false none).length ≠ (['İ'] : List Char).length + 1 := by
  constructor <;> decide

/-- C10 (amended): a case-sensitive literal search for the empty
pattern over a text of length n returns exactly the n+1 empty spans
(i, i) for i = 0..n; a case-insensitive one returns the m+1 empty spans
for the length m of the case-folded text (equal to n except for the
rare expanding fold) — so the engine accepts the empty pattern and
produces one hit per offset rather than failing — while the GUI input
check rejects an empty search string. -/
theorem C10_amended (text : List Char) :
    find_matches_in_text text [] true none =
        (List.range (text.length + 1)).map (fun i => (i, i)) ∧
      find_matches_in_text text [] false none =
        (List.range ((pyLower text).length + 1)).map (fun i => (i, i)) ∧
      validate_search_text [] = false := by
  have hocc : ∀ t : List Char, occPositions t [] 0 = List.range (t.length + 1) := by
    intro t
    apply List.filter_eq_self.mpr
    intro a _
    simp [List.isPrefixOf]
  refine ⟨?_, ?_, by decide⟩
  · show litSearch text [] = _
    rw [litSearch_eq, hocc]
    simp
  · show litSearch (pyLower text) [] = _
    rw [litSearch_eq, hocc]
    simp

/-! ## ContentTextDecoder lemmas -/

/-- Unfolding of the octal branch of the escape decoder. -/
theorem unescape_oct_core (d1 : Nat) (rest2 : List Nat) (h1 : isOctDigit d1 = true) :
    pdf_unescape_bytes (92 :: d1 :: rest2) =
      appendByte (octVal (d1 :: (takeOct2 rest2).1)) (pdf_unescape_bytes (takeOct2 rest2).2) := by
  have hd : 48 ≤ d1 ∧ d1 ≤ 55 := by simpa [isOctDigit] using h1
  have n0 : ¬ (d1 = 40 ∨ d1 = 41 ∨ d1 = 92) := by omega
  have n1 : ¬ d1 = 110 := by omega
  have n2 : ¬ d1 = 114 := by omega
  have n3 : ¬ d1 = 116 := by omega
  have n4 : ¬ d1 = 98 := by omega
  have n5 : ¬ d1 = 102 := by omega
  simp [pdf_unescape_bytes, n0, n1, n2, n3, n4, n5, h1]

/-- Octal digits are bounded, so small octal values stay below 256. -/
theorem octVal_two_le (d1 d2 : Nat) (h1 : isOctDigit d1 = true) (h2 : isOctDigit d2 = true) :
    octVal [d1, d2] ≤ 255 := by
  have hd1 : 48 ≤ d1 ∧ d1 ≤ 55 := by simpa [isOctDigit] using h1
  have hd2 : 48 ≤ d2 ∧ d2 ≤ 55 := by simpa [isOctDigit] using h2
  simp only [octVal, List.foldl]
  omega

/-! ## Claim C6 — PDF string-escape decoding -/

/-- C6 (counterexample): a three-digit octal escape whose value exceeds
255 is dropped entirely rather than mapped to a byte: `\777` (value
511) decodes to the empty byte string, not to `[511]`. -/
theorem C6_cex :
    pdf_unescape_bytes [92, 55, 55, 55] ≠ [octVal [55, 55, 55]] ∧
      pdf_unescape_bytes [92, 55, 55, 55] = [] := by
  constructor <;> simp [pdf_unescape_bytes, takeOct2, octVal, appendByte, isOctDigit]

/-- C6 (amended): the escape decoder maps the escaped delimiters to
their literal bytes, the named control escapes to their control bytes,
a backslash followed by one to three octal digits to the byte with that
octal value when the value is at most 255 — an over-large three-digit
value (above 255) is dropped entirely — and any other escaped byte to
itself; the decoded bytes are then interpreted as UTF-8, and on invalid
UTF-8 the permissive latin-1 decoding is used, so decoding always
produces a string. -/
theorem C6_amended :
    (∀ rest : List Nat,
        pdf_unescape_bytes (92 :: 40 :: rest) = 40 :: pdf_unescape_bytes rest ∧
        pdf_unescape_bytes (92 :: 41 :: rest) = 41 :: pdf_unescape_bytes rest ∧
        pdf_unescape_bytes (92 :: 92 :: rest) = 92 :: pdf_unescape_bytes rest ∧
        pdf_unescape_bytes (92 :: 110 :: rest) = 10 :: pdf_unescape_bytes rest ∧
        pdf_unescape_bytes (92 :: 114 :: rest) = 13 :: pdf_unescape_bytes rest ∧
        pdf_unescape_bytes (92 :: 116 :: rest) = 9 :: pdf_unescape_bytes rest ∧
        pdf_unescape_bytes (92 :: 98 :: rest) = 8 :: pdf_unescape_bytes rest ∧
        pdf_unescape_bytes (92 :: 102 :: rest) = 12 :: pdf_unescape_bytes rest) ∧
    (∀ (d1 d2 d3 : Nat) (rest : List Nat), isOctDigit d1 = true → isOctDigit d2 = true →
        isOctDigit d3 = true →
        (octVal [d1, d2, d3] ≤ 255 →
          pdf_unescape_bytes (92 :: d1 :: d2 :: d3 :: rest) =
            octVal [d1, d2, d3] :: pdf_unescape_bytes rest) ∧
        (255 < octVal [d1, d2, d3] →
          pdf_unescape_bytes (92 :: d1 :: d2 :: d3 :: rest) = pdf_unescape_bytes rest)) ∧
    (∀ (d1 d2 b : Nat) (rest : List Nat), isOctDigit d1 = true → isOctDigit d2 = true →
        isOctDigit b = false →
        pdf_unescape_bytes (92 :: d1 :: d2 :: b :: rest) =
          octVal [d1, d2] :: pdf_unescape_bytes (b :: rest)) ∧
    (∀ (d1 b : Nat) (rest : List Nat), isOctDigit d1 = true → isOctDigit b = false →
        pdf_unescape_bytes (92 :: d1 :: b :: rest) =
          octVal [d1] :: pdf_unescape_bytes (b :: rest)) ∧
    (∀ (c : Nat) (rest : List Nat), c ≠ 40 → c ≠ 41 → c ≠ 92 → c ≠ 110 → c ≠ 114 →
        c ≠ 116 → c ≠ 98 → c ≠ 102 → isOctDigit c = false →
        pdf_unescape_bytes (92 :: c :: rest) = c :: pdf_unescape_bytes rest) ∧
    (∀ b : List Nat,
        (∀ cs, utf8Decode (pdf_unescape_bytes b) = some cs → pdf_unescape_string b = cs) ∧
        (utf8Decode (pdf_unescape_bytes b) = none →
          pdf_unescape_string b = latin1Decode (pdf_unescape_bytes b))) := by
  refine ⟨?_, ?_, ?_, ?_, ?_, ?_⟩
  · intro rest
    refine ⟨?_, ?_, ?_, ?_, ?_, ?_, ?_, ?_⟩ <;> simp [pdf_unescape_bytes]
  · intro d1 d2 d3 rest h1 h2 h3
    have hco : pdf_unescape_bytes (92 :: d1 :: d2 :: d3 :: rest) =
        appendByte (octVal [d1, d2, d3]) (pdf_unescape_bytes rest) := by
      rw [unescape_oct_core d1 (d2 :: d3 :: rest) h1]
      simp [takeOct2, h2, h3]
    constructor
    · intro hle
      rw [hco, appendByte, if_pos hle]
    · intro hgt
      rw [hco, appendByte, if_neg (by omega)]
  · intro d1 d2 b rest h1 h2 hb
    rw [unescape_oct_core d1 (d2 :: b :: rest) h1]
    simp only [takeOct2, h2, if_pos, hb]
    simp [appendByte, if_pos (octVal_two_le d1 d2 h1 h2), hb]
  · intro d1 b rest h1 hb
    rw [unescape_oct_core d1 (b :: rest) h1]
    have hd1 : 48 ≤ d1 ∧ d1 ≤ 55 := by simpa [isOctDigit] using h1
    have hv : octVal [d1] ≤ 255 := by
      simp only [octVal, List.foldl]
      omega
    simp [takeOct2, hb, appendByte, hv]
  · intro c rest hc1 hc2 hc3 hc4 hc5 hc6 hc7 hc8 hoct
    simp [pdf_unescape_bytes, hc1, hc2, hc3, hc4, hc5, hc6, hc7, hc8, hoct]
  · intro b
    constructor
    · intro cs h
      unfold pdf_unescape_string
      simp [h]
    · intro h
      unfold pdf_unescape_string
      simp [h]

/-- C6 (witness): the amended escape contract at concrete inputs — a
named escape, a dropped over-large octal escape, an in-range octal
escape, and the UTF-8 path. -/
theorem C6_wit :
    pdf_unescape_bytes [92, 110, 65] = [10, 65] ∧
      pdf_unescape_bytes [92, 52, 48, 48] = [] ∧
      pdf_unescape_bytes [92, 49, 50, 51] = [83] ∧
      pdf_unescape_string [92, 110] = ['\n'] := by
  refine ⟨?_, ?_, ?_, ?_⟩
  · rw [(C6_amended.1 [65]).2.2.2.1]
    simp [pdf_unescape_bytes]
  · rw [(C6_amended.2.1 52 48 48 [] (by decide) (by decide) (by decide)).2 (by decide)]
    simp [pdf_unescape_bytes]
  · rw [(C6_amended.2.1 49 50 51 [] (by decide) (by decide) (by decide)).1 (by decide)]
    simp [pdf_unescape_bytes, octVal]
  · exact (C6_amended.2.2.2.2.2 [92, 110]).1 ['\n']
      (by simp [pdf_unescape_bytes, utf8Decode]; decide)

/-! ## PageExtractionPipeline lemmas -/

/-- First components of a numbered list form a consecutive range. -/
theorem enumFrom_map_fst {α : Type} (n : Nat) (l : List α) :
    (List.enumFrom n l).map Prod.fst = List.range' n l.length := by
  induction l generalizing n with
  | nil => rfl
  | cons a t ih => simp [List.enumFrom, List.range'_succ, ih]

/-- Entry of a numbered list at an index. -/
theorem enumFrom_getElem {α : Type} (n : Nat) (l : List α) (j : Nat) (hj : j < l.length) :
    (List.enumFrom n l).get ⟨j, by simpa using hj⟩ = (n + j, l.get ⟨j, hj⟩) := by
  induction l generalizing n j with
  | nil => exact absurd hj (by simp)
  | cons a t ih =>
    cases j with
    | zero => rfl
    | succ j =>
      have hj' : j < t.length := by simpa using hj
      have := ih (n + 1) j hj'
      simp only [List.enumFrom, List.get_cons_succ, this]
      congr 1
      omega

/-! ## Claim C7 — page numbering -/

/-- C7: for every object table (with the distinct ids a Python dict
guarantees) and any behaviour of the external decompressor, the
extraction result maps exactly the consecutive integers 1..N — N the
number of objects whose body carries the page marker — in scan order,
so page numbers are unique, and a page none of whose content references
resolves still receives an entry whose text is empty. -/
theorem C7_page_numbering (E : Ext) (objects : List (Nat × List Nat))
    (_hnd : (objects.map Prod.fst).Nodup) :
    ((extract_text_per_page_fast E objects).map Prod.fst =
        List.range' 1 (objects.filter (fun ob => containsPageMarker ob.2)).length) ∧
      ((extract_text_per_page_fast E objects).map Prod.fst).Nodup ∧
      (∀ j (hj : j < (objects.filter (fun ob => containsPageMarker ob.2)).length),
        (1 + j, pageTextOf E objects
            (resolveContents
              ((objects.filter (fun ob => containsPageMarker ob.2)).get ⟨j, hj⟩).2)) ∈
          extract_text_per_page_fast E objects) ∧
      (∀ contents : List Nat, (∀ cid ∈ contents, dictGet objects cid = none) →
        pageTextOf E objects contents = []) := by
  refine ⟨?_, ?_, ?_, ?_⟩
  · unfold extract_text_per_page_fast
    rw [enumFrom_map_fst, List.length_map]
  · unfold extract_text_per_page_fast
    rw [enumFrom_map_fst]
    exact List.nodup_range' _ _
  · intro j hj
    unfold extract_text_per_page_fast
    have hjm : j < ((objects.filter (fun ob => containsPageMarker ob.2)).map
        (fun ob => pageTextOf E objects (resolveContents ob.2))).length := by
      simpa using hj
    have hget := enumFrom_getElem 1 ((objects.filter (fun ob => containsPageMarker ob.2)).map
      (fun ob => pageTextOf E objects (resolveContents ob.2))) j hjm
    rw [List.get_map] at hget
    rw [← hget]
    exact List.get_mem _ _ _
  · intro contents hc
    unfold pageTextOf
    have hfm : (contents.flatMap fun cid =>
        match dictGet objects cid with
        | none => []
        | some body =>
          if body.isEmpty then []
          else (extract_streams_from_object E body).map extract_text_from_content_stream) =
        ([] : List (List Char)) := by
      induction contents with
      | nil => rfl
      | cons c t ih =>
        rw [List.flatMap_cons, hc c (List.mem_cons_self c t)]
        exact ih (fun cid hcid => hc cid (List.mem_cons_of_mem c hcid))
    rw [hfm]
    rfl

/-- C7 (witness): a concrete two-object table — one page object whose
single content reference does not resolve, one non-page object. -/
theorem C7_wit :
    ((List.map Prod.fst [(1, asciiBytes "<< /Type /Page /Contents 7 0 R >>"),
        (2, asciiBytes "<< /Length 3 >>")]).Nodup) ∧
      ((extract_text_per_page_fast ⟨fun _ => none, fun _ => none⟩
          [(1, asciiBytes "<< /Type /Page /Contents 7 0 R >>"),
           (2, asciiBytes "<< /Length 3 >>")]).map Prod.fst =
        List.range' 1 ([(1, asciiBytes "<< /Type /Page /Contents 7 0 R >>"),
           (2, asciiBytes "<< /Length 3 >>")].filter
            (fun ob => containsPageMarker ob.2)).length) := by
  constructor
  · decide
  · exact (C7_page_numbering ⟨fun _ => none, fun _ => none⟩
      [(1, asciiBytes "<< /Type /Page /Contents 7 0 R >>"),
       (2, asciiBytes "<< /Length 3 >>")] (by decide)).1

/-! ## SearchCoordinator lemmas -/

/-- Without cancellation the completion loop concatenates all task
results in completion order. -/
theorem coord_loop_noCancel (outs : List (List SearchHit × List SearchErr)) :
    ∀ j, coord_loop noCancel outs j =
      (outs.flatMap (fun o => o.1), outs.flatMap (fun o => o.2)) := by
  induction outs with
  | nil => intro j; rfl
  | cons o rest ih =>
    intro j
    cases o with
    | mk res err => simp [coord_loop, noCancel, ih (j + 1)]

/-- Without cancellation the coordinator returns each file's hits and
errors, concatenated in completion order. -/
theorem core_noCancel (fs : FileSys) (completion : List String) (st : List Char) (cs : Bool)
    (patt : Option Matcher) (cwOf : String → Nat → Bool) :
    main_processor_core noCancel cwOf fs completion st cs patt =
      (completion.flatMap (fun f => (worker_search_file (cwOf f) fs f st cs patt).1),
       completion.flatMap (fun f => (worker_search_file (cwOf f) fs f st cs patt).2)) := by
  unfold main_processor_core
  rw [coord_loop_noCancel]
  congr 1 <;> rw [List.flatMap_map]

/-- A sublist of files with pointwise-sublist contributions yields a
sublist of the concatenation. -/
theorem flatMap_sublist {α β : Type} {l₁ l₂ : List α} (f g : α → List β)
    (hs : l₁.Sublist l₂) (hfg : ∀ a, (f a).Sublist (g a)) :
    (l₁.flatMap f).Sublist (l₂.flatMap g) := by
  induction hs with
  | slnil => simp
  | cons a hs ih =>
    rw [List.flatMap_cons]
    exact ih.trans (List.sublist_append_right _ _)
  | cons₂ a hs ih =>
    rw [List.flatMap_cons, List.flatMap_cons]
    exact List.Sublist.append (hfg a) ih

/-- A cancelled page loop produces a sublist of the uncancelled one. -/
theorem worker_pages_loop_sublist (cw : Nat → Bool) (fpath : String) (st : List Char)
    (cs : Bool) (patt : Option Matcher) (pages : List (Nat × List Char)) :
    ∀ k, (worker_pages_loop cw fpath st cs patt pages k).Sublist
      (worker_pages_loop noCancel fpath st cs patt pages k) := by
  induction pages with
  | nil => intro k; simp [worker_pages_loop]
  | cons pr rest ih =>
    intro k
    cases pr with
    | mk pno ptext =>
      by_cases hcw : cw k
      · simp [worker_pages_loop, hcw, noCancel]
      · simp only [worker_pages_loop, hcw, noCancel, if_false, Bool.false_eq_true]
        exact List.Sublist.append (List.Sublist.refl _) (ih (k + 1))

/-- A cancelled file task's hits are a sublist of the uncancelled
task's hits. -/
theorem worker_hits_sublist (cw : Nat → Bool) (fs : FileSys) (fpath : String)
    (st : List Char) (cs : Bool) (patt : Option Matcher) :
    ((worker_search_file cw fs fpath st cs patt).1).Sublist
      ((worker_search_file noCancel fs fpath st cs patt).1) := by
  unfold worker_search_file
  by_cases h0 : cw 0
  · simp [h0, noCancel]
  · simp only [h0, noCancel, if_false, Bool.false_eq_true]
    cases hfs : fs fpath with
    | error e => simp
    | ok pages => exact worker_pages_loop_sublist cw fpath st cs patt pages 1

/-- The page loop stops at the first set flag, keeping the hits of the
already-processed prefix of pages. -/
theorem worker_pages_loop_take (cw : Nat → Bool) (fpath : String) (st : List Char)
    (cs : Bool) (patt : Option Matcher) (pages : List (Nat × List Char)) :
    ∀ k, ∃ m, m ≤ pages.length ∧
      worker_pages_loop cw fpath st cs patt pages k =
        (pages.take m).flatMap
          (fun pr => if pr.2.isEmpty then [] else page_hits fpath st cs patt pr.1 pr.2) := by
  induction pages with
  | nil => intro k; exact ⟨0, Nat.le_refl 0, by simp [worker_pages_loop]⟩
  | cons pr rest ih =>
    intro k
    by_cases hcw : cw k
    · exact ⟨0, Nat.zero_le _, by cases pr; simp [worker_pages_loop, hcw]⟩
    · obtain ⟨m, hm, he⟩ := ih (k + 1)
      refine ⟨m + 1, by simp only [List.length_cons]; omega, ?_⟩
      cases pr with
      | mk pno ptext =>
        simp [worker_pages_loop, hcw, he, List.take_succ_cons, List.flatMap_cons]

/-- The completion loop stops at the first set flag, keeping the
results of the already-collected prefix of tasks. -/
theorem coord_loop_take (cc : Nat → Bool) (outs : List (List SearchHit × List SearchErr)) :
    ∀ j, ∃ m, m ≤ outs.length ∧
      coord_loop cc outs j =
        ((outs.take m).flatMap (fun o => o.1), (outs.take m).flatMap (fun o => o.2)) := by
  induction outs with
  | nil => intro j; exact ⟨0, Nat.le_refl 0, rfl⟩
  | cons o rest ih =>
    intro j
    by_cases hcc : cc j
    · exact ⟨0, Nat.zero_le _, by cases o; simp [coord_loop, hcc]⟩
    · obtain ⟨m, hm, he⟩ := ih (j + 1)
      refine ⟨m + 1, by simp only [List.length_cons]; omega, ?_⟩
      cases o with
      | mk res err =>
        simp [coord_loop, hcc, he, List.take_succ_cons, List.flatMap_cons]

/-- Concatenation in any two completion orders gives permuted totals. -/
theorem perm_flatMap {α β : Type} {l₁ l₂ : List α} (f : α → List β) (h : l₁.Perm l₂) :
    (l₁.flatMap f).Perm (l₂.flatMap f) := by
  induction h with
  | nil => simp
  | cons a h ih =>
    rw [List.flatMap_cons, List.flatMap_cons]
    exact ih.append_left (f a)
  | swap a b l =>
    rw [List.flatMap_cons, List.flatMap_cons, List.flatMap_cons, List.flatMap_cons,
      ← List.append_assoc, ← List.append_assoc]
    exact List.Perm.append_right _ (List.perm_append_comm)
  | trans h1 h2 ih1 ih2 => exact ih1.trans ih2

/-! ## Claim C3 — invalid regular expression -/

/-- C3: an invalid regular expression aborts the run during pattern
compilation, before any file task exists: the coordinator returns the
compile error itself, producing no hits and no per-file SearchError
records, and the failure is reported distinctly from them. -/
theorem C3_pattern_error (rc : ReCompile) (cc : Nat → Bool) (cwOf : String → Nat → Bool)
    (fs : FileSys) (completion : List String) (st : List Char) (cs : Bool) (e : List Char)
    (hrc : rc st cs = .error e) :
    main_processor rc cc cwOf fs completion st cs true = .error e ∧
      ∀ out, main_processor rc cc cwOf fs completion st cs true ≠ .ok out := by
  have h : main_processor rc cc cwOf fs completion st cs true = .error e := by
    unfold main_processor compile_pattern
    simp [hrc]
  refine ⟨h, fun out hok => ?_⟩
  rw [h] at hok
  exact Except.noConfusion hok

/-- C3 (witness): a compile failure on a concrete run. -/
theorem C3_wit :
    main_processor (fun _ _ => .error ['x']) noCancel (fun _ => noCancel)
      (fun _ => .ok []) ["a.pdf"] ['a'] false true = .error ['x'] :=
  (C3_pattern_error (fun _ _ => .error ['x']) noCancel (fun _ => noCancel)
    (fun _ => .ok []) ["a.pdf"] ['a'] false ['x'] rfl).1

/-! ## Claim C4 — per-file failure isolation -/

/-- C4: a file task whose extraction raises records exactly one error
row carrying the file path, the formatted message and the traceback —
the row has no page field — the task itself returns normally, and in a
full run the failing file contributes exactly that one error row while
every other file's hits and errors are unchanged. -/
theorem C4_file_error (fs : FileSys) (fpath : String) (exc : PyExc) (cw : Nat → Bool)
    (files₁ files₂ : List String) (st : List Char) (cs : Bool) (patt : Option Matcher)
    (hfs : fs fpath = .error exc) (hcw : cw 0 = false) :
    worker_search_file cw fs fpath st cs patt = ([], [errRecord fpath exc]) ∧
      main_processor_core noCancel (fun _ => noCancel) fs (files₁ ++ fpath :: files₂)
          st cs patt =
        ((main_processor_core noCancel (fun _ => noCancel) fs (files₁ ++ files₂)
            st cs patt).1,
         (main_processor_core noCancel (fun _ => noCancel) fs files₁ st cs patt).2 ++
           errRecord fpath exc ::
             (main_processor_core noCancel (fun _ => noCancel) fs files₂ st cs patt).2) := by
  have hw : ∀ c : Nat → Bool, c 0 = false →
      worker_search_file c fs fpath st cs patt = ([], [errRecord fpath exc]) := by
    intro c hc
    unfold worker_search_file
    simp [hc, hfs]
  refine ⟨hw cw hcw, ?_⟩
  rw [core_noCancel, core_noCancel, core_noCancel, core_noCancel]
  simp only [List.flatMap_append, List.flatMap_cons]
  rw [hw noCancel rfl]
  simp

/-- C4 (witness): a run over two healthy files and one failing file. -/
theorem C4_wit :
    worker_search_file noCancel (fun _ => .error ⟨['E'], ['m'], ['t']⟩) "bad.pdf"
      ['a'] true none = ([], [errRecord "bad.pdf" ⟨['E'], ['m'], ['t']⟩]) :=
  (C4_file_error (fun _ => .error ⟨['E'], ['m'], ['t']⟩) "bad.pdf" ⟨['E'], ['m'], ['t']⟩
    noCancel ["a"] ["b"] ['a'] true none rfl rfl).1

/-! ## Claim C5 — cooperative cancellation -/

/-- C5: under a monotone cancellation flag, every file task stops at a
page boundary keeping the hits of the pages already processed, the
completion loop stops collecting after observing the flag, keeping the
results of the tasks already collected, the returned hits are a sublist
of those of the same run without cancellation, and the coordinator
still returns normally. -/
theorem C5_cancellation (fs : FileSys) (cc : Nat → Bool) (cwOf : String → Nat → Bool)
    (completion : List String) (st : List Char) (cs : Bool) (patt : Option Matcher)
    (_hcc : MonotoneFlag cc) (_hcw : ∀ f, MonotoneFlag (cwOf f)) :
    (∀ (f : String) (pages : List (Nat × List Char)), fs f = .ok pages →
        ∃ m, m ≤ pages.length ∧
          (worker_search_file (cwOf f) fs f st cs patt).1 =
            (pages.take m).flatMap
              (fun pr => if pr.2.isEmpty then [] else page_hits f st cs patt pr.1 pr.2)) ∧
      (∃ m, m ≤ completion.length ∧
        main_processor_core cc cwOf fs completion st cs patt =
          ((completion.take m).flatMap
              (fun f => (worker_search_file (cwOf f) fs f st cs patt).1),
           (completion.take m).flatMap
              (fun f => (worker_search_file (cwOf f) fs f st cs patt).2))) ∧
      ((main_processor_core cc cwOf fs completion st cs patt).1.Sublist
        (main_processor_core noCancel (fun _ => noCancel) fs completion st cs patt).1) ∧
      (∀ rc : ReCompile, main_processor rc cc cwOf fs completion st cs false =
        .ok (main_processor_core cc cwOf fs completion st cs none)) := by
  have hcore : ∃ m, m ≤ completion.length ∧
      main_processor_core cc cwOf fs completion st cs patt =
        ((completion.take m).flatMap
            (fun f => (worker_search_file (cwOf f) fs f st cs patt).1),
         (completion.take m).flatMap
            (fun f => (worker_search_file (cwOf f) fs f st cs patt).2)) := by
    obtain ⟨m, hm, he⟩ := coord_loop_take cc
      (completion.map (fun f => worker_search_file (cwOf f) fs f st cs patt)) 0
    refine ⟨m, by simpa using hm, ?_⟩
    unfold main_processor_core
    rw [he, ← List.map_take, List.flatMap_map, List.flatMap_map]
  refine ⟨?_, hcore, ?_, ?_⟩
  · intro f pages hok
    unfold worker_search_file
    by_cases h0 : cwOf f 0
    · exact ⟨0, Nat.zero_le _, by simp [h0]⟩
    · obtain ⟨m, hm, he⟩ := worker_pages_loop_take (cwOf f) f st cs patt pages 1
      exact ⟨m, hm, by simp [h0, hok, he]⟩
  · obtain ⟨m, hm, he⟩ := hcore
    rw [he, core_noCancel]
    exact (flatMap_sublist _ _ (List.take_sublist m completion)
        (fun a => List.Sublist.refl _)).trans
      (flatMap_sublist _ _ (List.Sublist.refl _)
        (fun a => worker_hits_sublist (cwOf a) fs a st cs patt))
  · intro rc
    rfl

/-- C5 (witness): a run of two files of two pages each, with the
coordinator flag set from its second poll on and each task's flag set
from its third check on. -/
theorem C5_wit :
    (main_processor_core (fun j => decide (1 ≤ j)) (fun _ j => decide (3 ≤ j))
        (fun _ => .ok [(1, ['a']), (2, ['b'])]) ["p", "q"] ['a'] true none).1.Sublist
      (main_processor_core noCancel (fun _ => noCancel)
        (fun _ => .ok [(1, ['a']), (2, ['b'])]) ["p", "q"] ['a'] true none).1 :=
  (C5_cancellation (fun _ => .ok [(1, ['a']), (2, ['b'])]) (fun j => decide (1 ≤ j))
    (fun _ j => decide (3 ≤ j)) ["p", "q"] ['a'] true none
    (fun i j hij hi => by
      simp only [decide_eq_true_eq] at hi ⊢
      omega)
    (fun f i j hij hi => by
      simp only [decide_eq_true_eq] at hi ⊢
      omega)).2.2.1

/-! ## Claim C9 — completion-order independence -/

/-- C9: for any two completion orders of the same file set — in
particular those arising from pools of one and of eight workers — the
hit collections and the error collections of an uncancelled run are
permutations of each other. -/
theorem C9_order_independence (fs : FileSys) (c1 c2 : List String) (st : List Char)
    (cs : Bool) (patt : Option Matcher) (hperm : c1.Perm c2) :
    ((main_processor_core noCancel (fun _ => noCancel) fs c1 st cs patt).1.Perm
        (main_processor_core noCancel (fun _ => noCancel) fs c2 st cs patt).1) ∧
      ((main_processor_core noCancel (fun _ => noCancel) fs c1 st cs patt).2.Perm
        (main_processor_core noCancel (fun _ => noCancel) fs c2 st cs patt).2) := by
  rw [core_noCancel, core_noCancel]
  exact ⟨perm_flatMap _ hperm, perm_flatMap _ hperm⟩

/-- C9 (witness): the two orders of a two-file set. -/
theorem C9_wit :
    ((main_processor_core noCancel (fun _ => noCancel) (fun _ => .ok [(1, ['a'])])
        ["a", "b"] ['a'] true none).1.Perm
      (main_processor_core noCancel (fun _ => noCancel) (fun _ => .ok [(1, ['a'])])
        ["b", "a"] ['a'] true none).1) :=
  (C9_order_independence (fun _ => .ok [(1, ['a'])]) ["a", "b"] ["b", "a"] ['a'] true none
    (by decide)).1

end PdfSearch
